import Mathlib

/-!
# block-crawler: verification of the orchestration core

A shallow embedding of the orchestration core of the block-crawler
repository, together with theorems checking its specification.

Conventions used throughout:

* Browser-driver operations (locator queries, clicks, navigation,
  evaluate-in-page) are external collaborators of the core.  Their results
  are supplied to the embedded functions as explicit inputs (lists of
  observations, count oracles), and the embedding captures the decision
  logic the core performs on those results.
* JavaScript strings are modelled as lists of UTF-16 code units
  (`List Nat`) where code-unit-level behaviour matters (the filename
  sanitizer), and as `String` or `List Char` elsewhere.
* Fallible operations return `Option` or `Except`; in-memory recorder
  mutations are modelled by explicit state passing; the observable actions
  of a processor are modelled as an emitted event trace.
-/

namespace BlockCrawler

/-! ## ConcurrentExecutor (src/executors/ConcurrentExecutor.ts)

`executeAll` maintains two per-run counters, `completed` and `failed`.
Each link task either skips (page already complete, or known free),
succeeds, or raises an error carrying a message.  An error whose message
contains the substring "Target page, context or browser has been closed"
is treated as a user abort: the catch block returns without touching
either counter.  Every other error increments `failed`.
-/

/-- The user-abort marker substring tested by the catch block of
ConcurrentExecutor.executeAll. -/
def userAbortMarker : List Char := "Target page, context or browser has been closed".data

/-- Per-run counters of ConcurrentExecutor. -/
structure Counters where
  completed : Nat
  failed : Nat
deriving DecidableEq

/-- The possible outcomes of one link task, as observed by the accounting
code in executeAll: the two pre-dispatch skips, a successful execution,
or an error with its message. -/
inductive LinkOutcome where
  | skippedCompleted
  | skippedKnownFree
  | success
  | failure (msg : List Char)
deriving DecidableEq

/-- Counter update performed by executeAll for one link task outcome.
Skips and successes increment `completed`; an error increments `failed`
unless its message contains the user-abort marker, in which case the
catch block returns early and neither counter changes. -/
def accountLink (c : Counters) : LinkOutcome → Counters
  | .skippedCompleted => { c with completed := c.completed + 1 }
  | .skippedKnownFree => { c with completed := c.completed + 1 }
  | .success => { c with completed := c.completed + 1 }
  | .failure msg =>
      if userAbortMarker <:+: msg then c
      else { c with failed := c.failed + 1 }

/-- The counters after executeAll has accounted a whole list of link task
outcomes (the per-task updates are not suspension points, so they fold
sequentially). -/
def executeAllCounters (outcomes : List LinkOutcome) : Counters :=
  outcomes.foldl accountLink { completed := 0, failed := 0 }

/-- Claim C4: a link task error whose message contains
"Target page, context or browser has been closed" changes neither the
completed counter nor the failed counter; every other link task error
increments the failed counter (and leaves the completed counter alone). -/
theorem user_abort_not_counted (c : Counters) (msg : List Char) :
    (userAbortMarker <:+: msg → accountLink c (.failure msg) = c) ∧
    (¬ userAbortMarker <:+: msg →
      (accountLink c (.failure msg)).failed = c.failed + 1 ∧
      (accountLink c (.failure msg)).completed = c.completed) := by
  constructor
  · intro h
    simp [accountLink, h]
  · intro h
    simp [accountLink, h]

/-- Witness for C4: the abort message itself is not counted, and a
distinct error message increments the failed counter. -/
theorem user_abort_not_counted_witness :
    accountLink { completed := 3, failed := 1 } (.failure userAbortMarker) =
      { completed := 3, failed := 1 } ∧
    (accountLink { completed := 3, failed := 1 } (.failure "boom".data)).failed = 2 := by
  refine ⟨(user_abort_not_counted _ _).1 ?_, ?_⟩
  · exact List.infix_rfl
  · have h := (user_abort_not_counted { completed := 3, failed := 1 } "boom".data).2
    have hni : ¬ userAbortMarker <:+: "boom".data := by decide
    exact (h hni).1

/-! ## sanitizeFilename (src/utils/sanitize-filename.ts)

The sanitizer is a pipeline of five string rewrites followed by an
empty-string fallback.  JavaScript strings are sequences of UTF-16 code
units and `slice(0, 200)` cuts at 200 code units, so the embedding works
on `List Nat` of code units.  The rewrites, in source order:

1. replace every character of `< > : " / \ | ? *` by an underscore;
2. remove control characters (0x00-0x1F) and the delete character 0x7F;
3. collapse every run of two or more dots to a single dot;
4. strip leading and trailing runs of whitespace-or-dot characters
   (the JavaScript regex class `[\s.]`);
5. keep only the first 200 code units;
and if the result is empty, return "unnamed".
-/

/-- Code units of the characters the sanitizer replaces with an
underscore: < > : " / \ | ? * . -/
def illegalUnits : List Nat := [60, 62, 58, 34, 47, 92, 124, 63, 42]

/-- A control character in the sense of the sanitizer: 0x00-0x1F or the
delete character 0x7F. -/
def isControlUnit (c : Nat) : Bool := c ≤ 31 || c == 127

/-- The code units matched by the JavaScript regex class backslash-s:
tab, line feed, vertical tab, form feed, carriage return, space, no-break
space, ogham space mark, the U+2000 to U+200A range, line separator,
paragraph separator, narrow no-break space, medium mathematical space,
ideographic space, and the byte-order mark. -/
def jsWhitespaceUnits : List Nat :=
  [9, 10, 11, 12, 13, 32, 160, 5760,
   8192, 8193, 8194, 8195, 8196, 8197, 8198, 8199, 8200, 8201, 8202,
   8232, 8233, 8239, 8287, 12288, 65279]

/-- A character trimmed from the edges: whitespace or a dot. -/
def isTrimUnit (c : Nat) : Bool := c == 46 || c ∈ jsWhitespaceUnits

/-- Step 1: replace the filesystem-illegal characters with underscores. -/
def replaceIllegal (s : List Nat) : List Nat :=
  s.map (fun c => if c ∈ illegalUnits then 95 else c)

/-- Step 2: remove control characters and the delete character. -/
def removeControl (s : List Nat) : List Nat :=
  s.filter (fun c => !(isControlUnit c))

/-- Step 3: collapse every run of consecutive dots to a single dot
(the regex replaces runs of two or more dots by one dot, which leaves
exactly one dot per run). -/
def collapseDots (s : List Nat) : List Nat :=
  s.foldr (fun c acc =>
    if c == 46 && acc.head? == some 46 then acc else c :: acc) []

/-- Step 4a: strip the leading run of whitespace-or-dot characters. -/
def trimLeading (s : List Nat) : List Nat := s.dropWhile isTrimUnit

/-- Step 4b: strip the trailing run of whitespace-or-dot characters. -/
def trimTrailing (s : List Nat) : List Nat :=
  (s.reverse.dropWhile isTrimUnit).reverse

/-- The code units of the fallback name "unnamed". -/
def unnamedUnits : List Nat := [117, 110, 110, 97, 109, 101, 100]

/-- The sanitizer pipeline of src/utils/sanitize-filename.ts. -/
def sanitizeFilename (s : List Nat) : List Nat :=
  let r := (trimTrailing (trimLeading (collapseDots (removeControl (replaceIllegal s))))).take 200
  if r = [] then unnamedUnits else r

/-- Two adjacent code units are never both dots. -/
def NotDotPair (a b : Nat) : Prop := ¬(a = 46 ∧ b = 46)

theorem collapseDots_nil : collapseDots [] = [] := rfl

theorem collapseDots_cons (x : Nat) (s : List Nat) :
    collapseDots (x :: s) =
      if x == 46 && (collapseDots s).head? == some 46 then collapseDots s
      else x :: collapseDots s := rfl

theorem mem_of_mem_collapseDots {c : Nat} :
    ∀ {s : List Nat}, c ∈ collapseDots s → c ∈ s := by
  intro s
  induction s with
  | nil => simp [collapseDots_nil]
  | cons x xs ih =>
      rw [collapseDots_cons]
      split
      · intro h
        exact List.mem_cons_of_mem x (ih h)
      · intro h
        rcases List.mem_cons.mp h with h | h
        · exact h ▸ List.mem_cons_self x xs
        · exact List.mem_cons_of_mem x (ih h)

theorem chain'_collapseDots (s : List Nat) :
    List.Chain' NotDotPair (collapseDots s) := by
  induction s with
  | nil => simp [collapseDots_nil]
  | cons x xs ih =>
      rw [collapseDots_cons]
      split
      · exact ih
      · rename_i hcond
        rw [List.chain'_cons']
        refine ⟨?_, ih⟩
        intro y hy hxy
        rcases hxy with ⟨hx46, hy46⟩
        subst hx46
        subst hy46
        apply hcond
        simp only [Option.mem_def] at hy
        simp [hy]

theorem collapseDots_eq_self_of_chain' :
    ∀ {s : List Nat}, List.Chain' NotDotPair s → collapseDots s = s := by
  intro s
  induction s with
  | nil => intro _; rfl
  | cons x xs ih =>
      intro h
      rcases List.chain'_cons'.mp h with ⟨hhead, htail⟩
      rw [collapseDots_cons, ih htail]
      rw [if_neg]
      intro hcond
      simp only [Bool.and_eq_true, beq_iff_eq] at hcond
      exact hhead 46 (by simp [hcond.2]) ⟨hcond.1, rfl⟩

theorem length_collapseDots_le (s : List Nat) :
    (collapseDots s).length ≤ s.length := by
  induction s with
  | nil => simp [collapseDots_nil]
  | cons x xs ih =>
      rw [collapseDots_cons]
      split
      · exact Nat.le_trans ih (Nat.le_succ _)
      · simpa using ih

theorem replaceIllegal_not_illegal {c : Nat} {s : List Nat}
    (h : c ∈ replaceIllegal s) : c ∉ illegalUnits := by
  rcases List.mem_map.mp h with ⟨a, _, ha⟩
  by_cases hmem : a ∈ illegalUnits
  · simp only [hmem, if_pos] at ha
    rw [← ha]
    decide
  · simp only [hmem, if_neg, not_false_iff] at ha
    rw [← ha]
    exact hmem

theorem replaceIllegal_eq_self {s : List Nat}
    (h : ∀ c ∈ s, c ∉ illegalUnits) : replaceIllegal s = s := by
  unfold replaceIllegal
  induction s with
  | nil => rfl
  | cons x xs ih =>
      simp only [List.map_cons]
      rw [if_neg (h x (List.mem_cons_self x xs)), ih]
      intro c hc
      exact h c (List.mem_cons_of_mem x hc)

theorem removeControl_not_control {c : Nat} {s : List Nat}
    (h : c ∈ removeControl s) : isControlUnit c = false := by
  have := List.of_mem_filter h
  simpa using this

theorem removeControl_eq_self {s : List Nat}
    (h : ∀ c ∈ s, isControlUnit c = false) : removeControl s = s := by
  apply List.filter_eq_self.mpr
  intro a ha
  simp [h a ha]

theorem mem_of_mem_removeControl {c : Nat} {s : List Nat}
    (h : c ∈ removeControl s) : c ∈ s :=
  List.mem_of_mem_filter h

theorem trimLeading_suffix (s : List Nat) : trimLeading s <:+ s :=
  List.dropWhile_suffix isTrimUnit

theorem trimTrailing_isPre (s : List Nat) : trimTrailing s <+: s := by
  have h : (s.reverse.dropWhile isTrimUnit) <:+ s.reverse :=
    List.dropWhile_suffix isTrimUnit
  have h2 : (trimTrailing s).reverse <:+ s.reverse := by
    unfold trimTrailing
    simpa using h
  exact List.reverse_suffix.mp h2

theorem mem_of_mem_trimLeading {c : Nat} {s : List Nat}
    (h : c ∈ trimLeading s) : c ∈ s :=
  (trimLeading_suffix s).subset h

theorem mem_of_mem_trimTrailing {c : Nat} {s : List Nat}
    (h : c ∈ trimTrailing s) : c ∈ s :=
  (trimTrailing_isPre s).subset h

theorem dropWhile_eq_self_of_head (p : Nat → Bool) (s : List Nat)
    (h : ∀ x, s.head? = some x → p x = false) : s.dropWhile p = s := by
  cases s with
  | nil => rfl
  | cons x xs =>
      rw [List.dropWhile_cons, if_neg]
      simp [h x rfl]

theorem head?_trimLeading (s : List Nat) :
    ∀ x, (trimLeading s).head? = some x → isTrimUnit x = false := by
  intro x hx
  have := List.head?_dropWhile_not isTrimUnit s
  unfold trimLeading at hx
  rw [hx] at this
  simpa using this

theorem trimLeading_of_isPre {s t : List Nat}
    (hp : t <+: s) (h : ∀ x, s.head? = some x → isTrimUnit x = false) :
    trimLeading t = t := by
  apply dropWhile_eq_self_of_head
  intro x hx
  apply h
  rcases hp with ⟨z, rfl⟩
  cases t with
  | nil => simp at hx
  | cons a as => simpa using hx

theorem trimTrailing_trimTrailing (s : List Nat) :
    trimTrailing (trimTrailing s) = trimTrailing s := by
  unfold trimTrailing
  rw [List.reverse_reverse]
  congr 1
  apply dropWhile_eq_self_of_head
  intro x hx
  have := List.head?_dropWhile_not isTrimUnit s.reverse
  rw [hx] at this
  simpa using this

theorem length_trimLeading_le (s : List Nat) :
    (trimLeading s).length ≤ s.length :=
  (trimLeading_suffix s).sublist.length_le

theorem length_trimTrailing_le (s : List Nat) :
    (trimTrailing s).length ≤ s.length :=
  (trimTrailing_isPre s).sublist.length_le

theorem sanitizeFilename_def (s : List Nat) :
    sanitizeFilename s =
      if (trimTrailing (trimLeading (collapseDots (removeControl (replaceIllegal s))))).take 200 = []
      then unnamedUnits
      else (trimTrailing (trimLeading (collapseDots (removeControl (replaceIllegal s))))).take 200 := rfl

/-- A string that the pipeline leaves untouched is a fixed point of the
sanitizer. -/
theorem sanitize_fix (t : List Nat)
    (hIll : ∀ c ∈ t, c ∉ illegalUnits)
    (hCtl : ∀ c ∈ t, isControlUnit c = false)
    (hChain : List.Chain' NotDotPair t)
    (hLead : trimLeading t = t)
    (hTrail : trimTrailing t = t)
    (hLen : t.length ≤ 200)
    (hNe : t ≠ []) :
    sanitizeFilename t = t := by
  rw [sanitizeFilename_def, replaceIllegal_eq_self hIll, removeControl_eq_self hCtl,
      collapseDots_eq_self_of_chain' hChain, hLead, hTrail,
      List.take_of_length_le hLen, if_neg hNe]

theorem length_replaceIllegal (s : List Nat) :
    (replaceIllegal s).length = s.length := by
  unfold replaceIllegal
  exact List.length_map s _

theorem length_removeControl_le (s : List Nat) :
    (removeControl s).length ≤ s.length := by
  unfold removeControl
  exact List.length_filter_le _ s

/-- Claim C8 (amended): for every input of at most 200 code units — so
that the slice at 200 cannot cut the trimmed string — the sanitizer is
idempotent.  (For longer inputs the truncation can expose a trailing dot
or space that a second application trims; see the counterexample.) -/
theorem sanitizeFilename_idem_of_bounded (s : List Nat) (h : s.length ≤ 200) :
    sanitizeFilename (sanitizeFilename s) = sanitizeFilename s := by
  have hlen :
      (trimTrailing (trimLeading (collapseDots (removeControl (replaceIllegal s))))).length ≤ 200 := by
    calc (trimTrailing (trimLeading (collapseDots (removeControl (replaceIllegal s))))).length
        ≤ (trimLeading (collapseDots (removeControl (replaceIllegal s)))).length :=
          length_trimTrailing_le _
      _ ≤ (collapseDots (removeControl (replaceIllegal s))).length := length_trimLeading_le _
      _ ≤ (removeControl (replaceIllegal s)).length := length_collapseDots_le _
      _ ≤ (replaceIllegal s).length := length_removeControl_le _
      _ = s.length := length_replaceIllegal s
      _ ≤ 200 := h
  rw [sanitizeFilename_def s, List.take_of_length_le hlen]
  by_cases hnil :
      trimTrailing (trimLeading (collapseDots (removeControl (replaceIllegal s)))) = []
  · rw [if_pos hnil]
    decide
  · rw [if_neg hnil]
    apply sanitize_fix
    · intro c hc
      exact replaceIllegal_not_illegal
        (mem_of_mem_removeControl
          (mem_of_mem_collapseDots (mem_of_mem_trimLeading (mem_of_mem_trimTrailing hc))))
    · intro c hc
      exact removeControl_not_control
        (mem_of_mem_collapseDots (mem_of_mem_trimLeading (mem_of_mem_trimTrailing hc)))
    · rcases trimTrailing_isPre
        (trimLeading (collapseDots (removeControl (replaceIllegal s)))) with ⟨z, hz⟩
      have hc := (chain'_collapseDots (removeControl (replaceIllegal s))).suffix
        (trimLeading_suffix _)
      rw [← hz] at hc
      exact hc.left_of_append
    · exact trimLeading_of_isPre (trimTrailing_isPre _) (head?_trimLeading _)
    · exact trimTrailing_trimTrailing _
    · exact hlen
    · exact hnil

/-- Witness for the amended C8 theorem at a concrete short input
containing an illegal character and a dot run. -/
theorem sanitizeFilename_idem_of_bounded_witness :
    ([97, 60, 98, 46, 46, 99] : List Nat).length ≤ 200 ∧
    sanitizeFilename (sanitizeFilename [97, 60, 98, 46, 46, 99]) =
      sanitizeFilename [97, 60, 98, 46, 46, 99] :=
  ⟨by decide, sanitizeFilename_idem_of_bounded [97, 60, 98, 46, 46, 99] (by decide)⟩

/-- 199 copies of the letter a, then a dot, then the letter b: 201 code
units, of which the slice keeps the first 200 and thereby leaves a
trailing dot that a second sanitizer application trims away. -/
def sanitizeCounterInput : List Nat := List.replicate 199 97 ++ [46, 98]

set_option maxRecDepth 40000 in
/-- Counterexample to claim C8 as stated: the sanitizer is not idempotent
on every input, because the 200-unit truncation can leave a trailing
dot. -/
theorem sanitizeFilename_not_idempotent :
    sanitizeFilename (sanitizeFilename sanitizeCounterInput) ≠
      sanitizeFilename sanitizeCounterInput := by decide

/-! ## ScriptInjector.injectScripts (src/processors/ScriptInjector.ts)

`injectScripts(page, scriptNames, timing)` first reads every named file
from the per-site scripts directory (read failures are caught and
skipped) and checks whether any readable script contains the
user-script marker.  If one does, the GM API shim (the polyfill
providing GM_xmlhttpRequest via fetch, GM_getValue / GM_setValue /
GM_deleteValue / GM_listValues via local storage, and GM_info) is
injected once, and only then is each readable script injected in list
order.  The `timing` argument selects the driver call (addInitScript
versus in-page evaluate) but not the order of injections, so the
embedding records the injection sequence as a trace of events.  Driver
injection failures are caught and logged; the pure model records the
attempted injection.
-/

/-- The user-script marker tested by isUserScript. -/
def userScriptMarker : List Char := "// ==UserScript==".data

/-- isUserScript: does the script content contain the marker? -/
def isUserScript (content : String) : Bool :=
  decide (userScriptMarker <:+: content.data)

/-- The state-directory script store: file name to file content, for the
files that can be read (readFile failures are modelled by absence). -/
def readScript (store : List (String × String)) (name : String) : Option String :=
  (store.find? (fun kv => kv.1 == name)).map (·.2)

/-- One injection performed by injectScripts. -/
inductive InjectionEvent where
  | gmShim
  | userScript (name : String) (content : String)
deriving DecidableEq

/-- The pre-check loop of injectScripts: is there a readable script whose
content contains the user-script marker? -/
def hasUserScript (store : List (String × String)) (names : List String) : Bool :=
  names.any (fun n =>
    match readScript store n with
    | some c => isUserScript c
    | none => false)

/-- The injections performed by injectScripts, in order: the GM shim
first when some named readable script is a user script, then each
readable script in list order. -/
def injectScripts (store : List (String × String)) (names : List String) :
    List InjectionEvent :=
  (if hasUserScript store names then [InjectionEvent.gmShim] else []) ++
    names.filterMap (fun n => (readScript store n).map (InjectionEvent.userScript n))

theorem gmShim_not_mem_scriptEvents (store : List (String × String)) (names : List String) :
    InjectionEvent.gmShim ∉
      names.filterMap (fun n => (readScript store n).map (InjectionEvent.userScript n)) := by
  intro h
  rcases List.mem_filterMap.mp h with ⟨n, _, hn⟩
  cases hr : readScript store n with
  | none => rw [hr] at hn; simp at hn
  | some c => rw [hr] at hn; simp at hn

theorem hasUserScript_iff (store : List (String × String)) (names : List String) :
    hasUserScript store names = true ↔
      ∃ n ∈ names, ∃ c, readScript store n = some c ∧ isUserScript c = true := by
  unfold hasUserScript
  rw [List.any_eq_true]
  constructor
  · rintro ⟨n, hn, hc⟩
    cases hr : readScript store n with
    | none => rw [hr] at hc; simp at hc
    | some c => rw [hr] at hc; exact ⟨n, hn, c, hr, hc⟩
  · rintro ⟨n, hn, c, hr, hc⟩
    exact ⟨n, hn, by rw [hr]; exact hc⟩

/-- Claim C9: when at least one named readable script contains the
"// ==UserScript==" marker, the GM shim is injected exactly once and as
the very first injection (hence before every user script); when no named
script contains the marker, the shim is not injected at all. -/
theorem gm_shim_injected_once_first (store : List (String × String)) (names : List String) :
    ((∃ n ∈ names, ∃ c, readScript store n = some c ∧ isUserScript c = true) →
      (injectScripts store names).head? = some InjectionEvent.gmShim ∧
      (injectScripts store names).count InjectionEvent.gmShim = 1) ∧
    ((¬ ∃ n ∈ names, ∃ c, readScript store n = some c ∧ isUserScript c = true) →
      InjectionEvent.gmShim ∉ injectScripts store names) := by
  constructor
  · intro hex
    have hb : hasUserScript store names = true := (hasUserScript_iff store names).mpr hex
    unfold injectScripts
    rw [hb]
    constructor
    · simp
    · simp only [List.count_cons, List.count_append, if_true, List.singleton_append]
      have h0 :
          (names.filterMap
            (fun n => (readScript store n).map (InjectionEvent.userScript n))).count
            InjectionEvent.gmShim = 0 :=
        List.count_eq_zero.mpr (gmShim_not_mem_scriptEvents store names)
      simp [List.count_cons, h0]
  · intro hnex
    have hb : hasUserScript store names = false := by
      cases hcase : hasUserScript store names with
      | false => rfl
      | true => exact absurd ((hasUserScript_iff store names).mp hcase) hnex
    unfold injectScripts
    rw [hb]
    simp only [Bool.false_eq_true, if_false, List.nil_append]
    exact gmShim_not_mem_scriptEvents store names

/-- Witness for C9: a store with one user script and one plain script;
the shim is first and unique, and with only the plain script no shim is
injected. -/
theorem gm_shim_injected_once_first_witness :
    ((injectScripts [("a.js", "// ==UserScript== x"), ("b.js", "plain")]
        ["a.js", "b.js"]).head? = some InjectionEvent.gmShim ∧
      (injectScripts [("a.js", "// ==UserScript== x"), ("b.js", "plain")]
        ["a.js", "b.js"]).count InjectionEvent.gmShim = 1) ∧
    InjectionEvent.gmShim ∉
      injectScripts [("a.js", "// ==UserScript== x"), ("b.js", "plain")] ["b.js"] := by
  constructor
  · exact (gm_shim_injected_once_first
      [("a.js", "// ==UserScript== x"), ("b.js", "plain")] ["a.js", "b.js"]).1
      ⟨"a.js", by decide, "// ==UserScript== x", by decide, by decide⟩
  · exact (gm_shim_injected_once_first
      [("a.js", "// ==UserScript== x"), ("b.js", "plain")] ["b.js"]).2
      (by decide)

/-! ## Free checker (src/utils/free-checker.ts, checkFreeGeneric)

For a block-scoped check with a processing context, checkFreeGeneric
first picks a search region.  On the first check it detects a strategy:
when the first heading of the block exists and has more than one element
child it searches inside the heading and caches the strategy "heading";
when the heading exists with at most one element child it searches in
the heading parent (the `..` locator) and caches "container"; with no
heading it searches the whole block and caches nothing.  On later checks
the cached strategy is applied directly.  It then counts matches of the
search text inside the region via the driver:
`searchTarget.getByText(searchText).count()`, where searchText is the
regex matching "free" case-insensitively when skipFree is "default" and
otherwise the skipFree string itself, passed with no options (so without
the exact flag of the driver API; by the driver contract a plain string
is a case-insensitive substring match).  Count 0 returns not-free,
count 1 returns free, any other count throws the ambiguity error.

The driver observations (heading existence, child counts, text-match
counts) are inputs of the embedding: a BlockShape records what the
locator queries of checkFreeGeneric observe on the block, and a count
oracle stands for getByText(...).count().
-/

/-- The two strategy values checkFreeGeneric caches on the processing
context. -/
inductive FreeCheckStrategy where
  | heading
  | container
deriving DecidableEq

/-- What the locator queries of checkFreeGeneric observe on one block:
whether getByRole("heading").first() finds a heading, how many direct
element children that heading has, and how many direct element children
the heading parent has (the last is consulted only by the spec text, not
by this revision of the code). -/
structure BlockShape where
  hasHeading : Bool
  headingChildCount : Nat
  parentChildCount : Nat
deriving DecidableEq

/-- The region the free text is searched in. -/
inductive SearchRegion where
  | headingRegion
  | headingParentRegion
  | headingGrandparentRegion
  | wholeBlock
deriving DecidableEq

/-- The search region chosen by checkFreeGeneric given the cached
strategy (none on the first check of a page context). -/
def searchRegionOf (cache : Option FreeCheckStrategy) (b : BlockShape) : SearchRegion :=
  match cache with
  | some .heading => if b.hasHeading then .headingRegion else .wholeBlock
  | some .container => if b.hasHeading then .headingParentRegion else .wholeBlock
  | none =>
      if b.hasHeading then
        (if b.headingChildCount > 1 then .headingRegion else .headingParentRegion)
      else .wholeBlock

/-- The strategy cached on the processing context after one check. -/
def strategyAfter (cache : Option FreeCheckStrategy) (b : BlockShape) :
    Option FreeCheckStrategy :=
  match cache with
  | some s => some s
  | none =>
      if b.hasHeading then
        some (if b.headingChildCount > 1 then FreeCheckStrategy.heading
              else FreeCheckStrategy.container)
      else none

/-- The text filter handed to the driver getByText call: the
case-insensitive regex on "free" for the "default" configuration, and
otherwise the configured string with the exact flag of the driver call
(false here, because the source passes no options object). -/
inductive TextQuery where
  | regexFreeI
  | text (s : String) (exact : Bool)
deriving DecidableEq

/-- The query built by checkFreeGeneric from a string skipFree value. -/
def freeQuery (skipFree : String) : TextQuery :=
  if skipFree = "default" then TextQuery.regexFreeI else TextQuery.text skipFree false

/-- The error thrown when the free text matches more than once. -/
inductive FreeCheckError where
  | freeAmbiguous (count : Nat)
deriving DecidableEq

/-- checkFreeGeneric for a string-or-absent skipFree configuration, over
a count oracle standing for getByText(...).count() on each candidate
region.  (A function-valued skipFree delegates to user code and is
outside this model.)  Returns the verdict and the updated cached
strategy. -/
def checkFreeGeneric (counts : SearchRegion → TextQuery → Nat)
    (cache : Option FreeCheckStrategy) (b : BlockShape) (skipFree : Option String) :
    Except FreeCheckError Bool × Option FreeCheckStrategy :=
  match skipFree with
  | none => (Except.ok false, cache)
  | some s =>
      let newCache := strategyAfter cache b
      let n := counts (searchRegionOf cache b) (freeQuery s)
      if n = 0 then (Except.ok false, newCache)
      else if n = 1 then (Except.ok true, newCache)
      else (Except.error (FreeCheckError.freeAmbiguous n), newCache)

/-- Modelled from the wording of claim C5 (and spec 4.F): the three-way
region rule, including a grandparent case when the heading parent has
only the heading as child. -/
def claimSearchRegion (b : BlockShape) : SearchRegion :=
  if b.hasHeading then
    (if b.headingChildCount > 1 then SearchRegion.headingRegion
     else if b.parentChildCount = 1 then SearchRegion.headingGrandparentRegion
     else SearchRegion.headingParentRegion)
  else SearchRegion.wholeBlock

/-- Modelled from the amended wording of claim C5: two cases only —
heading with more than one element child searches the heading, any other
heading searches the heading parent, no heading searches the block. -/
def amendedSearchRegion (b : BlockShape) : SearchRegion :=
  if b.hasHeading then
    (if b.headingChildCount > 1 then SearchRegion.headingRegion
     else SearchRegion.headingParentRegion)
  else SearchRegion.wholeBlock

/-- Counterexample to claim C5 as stated: on a block whose heading has
one element child and whose heading parent has only that heading as
child, the code searches the heading parent, not the grandparent that
the claim prescribes. -/
theorem search_region_counterexample :
    searchRegionOf none
        { hasHeading := true, headingChildCount := 1, parentChildCount := 1 } ≠
      claimSearchRegion
        { hasHeading := true, headingChildCount := 1, parentChildCount := 1 } := by
  decide

/-- Claim C5 (amended): on the first block-scoped check of a page
context the search region follows the two-case rule (heading with more
than one element child searches the heading, otherwise the heading
parent; no heading searches the whole block), the corresponding strategy
is cached exactly when a heading exists, and re-running the check on the
same shape with the freshly cached strategy selects the same region. -/
theorem search_region_rule (b : BlockShape) :
    searchRegionOf none b = amendedSearchRegion b ∧
    strategyAfter none b =
      (if b.hasHeading then
        some (if b.headingChildCount > 1 then FreeCheckStrategy.heading
              else FreeCheckStrategy.container)
      else none) ∧
    searchRegionOf (strategyAfter none b) b = searchRegionOf none b := by
  unfold searchRegionOf strategyAfter amendedSearchRegion
  by_cases hh : b.hasHeading = true
  · by_cases hc : b.headingChildCount > 1 <;> simp [hh, hc]
  · simp only [Bool.not_eq_true] at hh
    simp [hh]

/-- Counterexample to claim C6 as stated: for a non-"default" string the
check passes the string to the driver getByText call without the exact
flag, so the match is the driver default (case-insensitive substring),
not an exact text match. -/
theorem free_query_not_exact :
    freeQuery "FREE" = TextQuery.text "FREE" false ∧
    freeQuery "FREE" ≠ TextQuery.text "FREE" true := by
  decide

/-- Claim C6 (amended): the "default" configuration queries the
case-insensitive free regex and any other string is queried as a plain
(non-exact) text filter; a match count of 0 returns not-free, exactly 1
returns free, more than 1 raises the ambiguity error, and the check
never returns free when the count differs from 1. -/
theorem free_check_count_trichotomy (counts : SearchRegion → TextQuery → Nat)
    (cache : Option FreeCheckStrategy) (b : BlockShape) (s : String) :
    freeQuery "default" = TextQuery.regexFreeI ∧
    (s ≠ "default" → freeQuery s = TextQuery.text s false) ∧
    (counts (searchRegionOf cache b) (freeQuery s) = 0 →
      (checkFreeGeneric counts cache b (some s)).1 = Except.ok false) ∧
    (counts (searchRegionOf cache b) (freeQuery s) = 1 →
      (checkFreeGeneric counts cache b (some s)).1 = Except.ok true) ∧
    (1 < counts (searchRegionOf cache b) (freeQuery s) →
      (checkFreeGeneric counts cache b (some s)).1 =
        Except.error (FreeCheckError.freeAmbiguous
          (counts (searchRegionOf cache b) (freeQuery s)))) ∧
    ((checkFreeGeneric counts cache b (some s)).1 = Except.ok true →
      counts (searchRegionOf cache b) (freeQuery s) = 1) := by
  refine ⟨rfl, ?_, ?_, ?_, ?_, ?_⟩
  · intro hs
    unfold freeQuery
    rw [if_neg hs]
  · intro h0
    unfold checkFreeGeneric
    simp [h0]
  · intro h1
    unfold checkFreeGeneric
    simp [h1]
  · intro hgt
    have h0 : counts (searchRegionOf cache b) (freeQuery s) ≠ 0 := by omega
    have h1 : counts (searchRegionOf cache b) (freeQuery s) ≠ 1 := by omega
    unfold checkFreeGeneric
    simp [h0, h1]
  · intro hok
    unfold checkFreeGeneric at hok
    by_cases h0 : counts (searchRegionOf cache b) (freeQuery s) = 0
    · simp [h0] at hok
    · by_cases h1 : counts (searchRegionOf cache b) (freeQuery s) = 1
      · exact h1
      · simp [h0, h1] at hok

/-- Witness for the amended C6 theorem: with an oracle counting one
match the check returns free, and with three matches it raises the
ambiguity error. -/
theorem free_check_count_trichotomy_witness :
    (checkFreeGeneric (fun _ _ => 1) none
        { hasHeading := true, headingChildCount := 2, parentChildCount := 3 }
        (some "FREE")).1 = Except.ok true ∧
    (checkFreeGeneric (fun _ _ => 3) none
        { hasHeading := true, headingChildCount := 2, parentChildCount := 3 }
        (some "FREE")).1 =
      Except.error (FreeCheckError.freeAmbiguous 3) := by
  constructor
  · exact (free_check_count_trichotomy (fun _ _ => 1) none
      { hasHeading := true, headingChildCount := 2, parentChildCount := 3 }
      "FREE").2.2.2.1 (by decide)
  · exact (free_check_count_trichotomy (fun _ _ => 3) none
      { hasHeading := true, headingChildCount := 2, parentChildCount := 3 }
      "FREE").2.2.2.2.1 (by decide)

/-! ## autoScrollToBottom (src/utils/auto-scroll.ts)

The scroller resolves its configuration against the defaults (step 800,
interval 500, timeout 120000), then loops: check the timeout; read the
scroll position; succeed when scroll position plus viewport height is at
least the content height minus 10; otherwise compare with the last
anchored scroll position — a change below 5 pixels increments a stall
counter and the third consecutive such tick succeeds, a larger change
re-anchors and resets the counter; otherwise wheel-scroll and wait one
interval.  The in-page measurements of each iteration are an input of
the embedding: a ScrollTick carries the elapsed time observed by the
timeout check and the three fields read by the evaluate call.  The loop
is modelled over the (finite) list of ticks the page would provide; an
exhausted list means the run was still scrolling.  The driver-error
catch branch (navigation teardown) is outside the pure model.
-/

/-- One loop iteration's observations: the elapsed milliseconds at the
timeout check, and the scrollTop / scrollHeight / clientHeight values
read by the in-page evaluate call. -/
structure ScrollTick where
  elapsed : Nat
  scrollTop : Int
  scrollHeight : Int
  clientHeight : Int
deriving DecidableEq

/-- The AutoScrollConfig record (all fields optional). -/
structure AutoScrollConfig where
  step : Option Nat
  interval : Option Nat
  timeout : Option Nat
deriving DecidableEq

/-- Scroll step resolved against the default of 800 pixels. -/
def resolvedScrollStep (c : AutoScrollConfig) : Nat := c.step.getD 800

/-- Scroll interval resolved against the default of 500 milliseconds. -/
def resolvedScrollInterval (c : AutoScrollConfig) : Nat := c.interval.getD 500

/-- Scroll timeout resolved against the default of 120000 milliseconds. -/
def resolvedScrollTimeout (c : AutoScrollConfig) : Nat := c.timeout.getD 120000

/-- Condition (a): scroll position plus viewport height reaches the
content height within the 10 pixel tolerance. -/
def reachedBottom (t : ScrollTick) : Prop :=
  t.scrollHeight - 10 ≤ t.scrollTop + t.clientHeight

instance (t : ScrollTick) : Decidable (reachedBottom t) := by
  unfold reachedBottom; infer_instance

/-- The stall test: the observed scroll position moved less than 5
pixels from the last anchored position. -/
def nearLast (lastTop : Int) (t : ScrollTick) : Prop :=
  (t.scrollTop - lastTop).natAbs < 5

instance (lastTop : Int) (t : ScrollTick) : Decidable (nearLast lastTop t) := by
  unfold nearLast; infer_instance

/-- What one loop iteration decides, given the anchored scroll position
and the stall counter: some false on timeout, some true at the bottom or
on the third consecutive stalled tick, none to keep scrolling. -/
def tickOutcome (timeout : Nat) (lastTop : Int) (unchanged : Nat) (t : ScrollTick) :
    Option Bool :=
  if timeout < t.elapsed then some false
  else if reachedBottom t then some true
  else if nearLast lastTop t ∧ 3 ≤ unchanged + 1 then some true
  else none

/-- The anchored-position / stall-counter update of a non-terminating
iteration: a move below 5 pixels keeps the anchor and increments the
counter, a larger move re-anchors and resets the counter. -/
def scrollUpd (lastTop : Int) (unchanged : Nat) (t : ScrollTick) : Int × Nat :=
  if nearLast lastTop t then (lastTop, unchanged + 1) else (t.scrollTop, 0)

/-- The while loop of autoScrollToBottom over the list of per-iteration
observations. -/
def autoScrollLoop (timeout : Nat) (lastTop : Int) (unchanged : Nat) :
    List ScrollTick → Option Bool
  | [] => none
  | t :: rest =>
      match tickOutcome timeout lastTop unchanged t with
      | some b => some b
      | none =>
          autoScrollLoop timeout (scrollUpd lastTop unchanged t).1
            (scrollUpd lastTop unchanged t).2 rest

/-- autoScrollToBottom: resolve the timeout and run the loop from the
initial anchor -1 and counter 0. -/
def autoScrollToBottom (cfg : AutoScrollConfig) (ticks : List ScrollTick) : Option Bool :=
  autoScrollLoop (resolvedScrollTimeout cfg) (-1) 0 ticks

/-- The (anchor, counter) state the loop holds before examining tick i,
assuming no earlier tick terminated. -/
def scrollStateAt (lastTop : Int) (unchanged : Nat) :
    List ScrollTick → Nat → Int × Nat
  | _, 0 => (lastTop, unchanged)
  | [], _ + 1 => (lastTop, unchanged)
  | t :: rest, i + 1 =>
      scrollStateAt (scrollUpd lastTop unchanged t).1 (scrollUpd lastTop unchanged t).2 rest i

theorem scrollStateAt_zero (lastTop : Int) (unchanged : Nat) (ticks : List ScrollTick) :
    scrollStateAt lastTop unchanged ticks 0 = (lastTop, unchanged) := by
  cases ticks <;> rfl

theorem scrollStateAt_cons_succ (lastTop : Int) (unchanged : Nat) (t : ScrollTick)
    (rest : List ScrollTick) (i : Nat) :
    scrollStateAt lastTop unchanged (t :: rest) (i + 1) =
      scrollStateAt (scrollUpd lastTop unchanged t).1 (scrollUpd lastTop unchanged t).2
        rest i := rfl

/-- The loop returns a verdict exactly at the first tick whose outcome
test fires, with the state folded over the earlier (non-terminating)
ticks. -/
theorem autoScrollLoop_characterization (timeout : Nat) :
    ∀ (ticks : List ScrollTick) (lastTop : Int) (unchanged : Nat) (b : Bool),
      autoScrollLoop timeout lastTop unchanged ticks = some b ↔
        ∃ i tk, ticks[i]? = some tk ∧
          (∀ j, j < i → ∀ tj, ticks[j]? = some tj →
            tickOutcome timeout (scrollStateAt lastTop unchanged ticks j).1
              (scrollStateAt lastTop unchanged ticks j).2 tj = none) ∧
          tickOutcome timeout (scrollStateAt lastTop unchanged ticks i).1
            (scrollStateAt lastTop unchanged ticks i).2 tk = some b := by
  intro ticks
  induction ticks with
  | nil =>
      intro l u b
      constructor
      · intro h
        simp [autoScrollLoop] at h
      · rintro ⟨i, tk, hget, -, -⟩
        simp at hget
  | cons t rest ih =>
      intro l u b
      cases hto : tickOutcome timeout l u t with
      | some b0 =>
          have hloop : autoScrollLoop timeout l u (t :: rest) = some b0 := by
            simp [autoScrollLoop, hto]
          constructor
          · intro h
            rw [hloop] at h
            have hb : b0 = b := by simpa using h
            refine ⟨0, t, by simp, ?_, ?_⟩
            · intro j hj
              omega
            · rw [scrollStateAt_zero]
              rw [← hb]
              exact hto
          · rintro ⟨i, tk, hget, hprev, hi⟩
            cases i with
            | zero =>
                have htk : tk = t := Eq.symm (by simpa using hget)
                rw [scrollStateAt_zero] at hi
                rw [htk] at hi
                rw [hloop]
                rw [hto] at hi
                simpa using hi
            | succ k =>
                have h0 := hprev 0 (Nat.succ_pos k) t (by simp)
                rw [scrollStateAt_zero] at h0
                rw [hto] at h0
                exact absurd h0 (by simp)
      | none =>
          have hstep : autoScrollLoop timeout l u (t :: rest) =
              autoScrollLoop timeout (scrollUpd l u t).1 (scrollUpd l u t).2 rest := by
            simp [autoScrollLoop, hto]
          rw [hstep, ih]
          constructor
          · rintro ⟨i, tk, hget, hprev, hi⟩
            refine ⟨i + 1, tk, by simpa using hget, ?_, ?_⟩
            · intro j hj tj hgetj
              cases j with
              | zero =>
                  have htj : tj = t := Eq.symm (by simpa using hgetj)
                  rw [scrollStateAt_zero, htj]
                  exact hto
              | succ k =>
                  rw [scrollStateAt_cons_succ]
                  exact hprev k (by omega) tj (by simpa using hgetj)
            · rw [scrollStateAt_cons_succ]
              exact hi
          · rintro ⟨i, tk, hget, hprev, hi⟩
            cases i with
            | zero =>
                have htk : tk = t := Eq.symm (by simpa using hget)
                rw [scrollStateAt_zero, htk, hto] at hi
                exact absurd hi (by simp)
            | succ k =>
                refine ⟨k, tk, by simpa using hget, ?_, ?_⟩
                · intro j hj tj hgetj
                  have := hprev (j + 1) (by omega) tj (by simpa using hgetj)
                  rw [scrollStateAt_cons_succ] at this
                  exact this
                · rw [scrollStateAt_cons_succ] at hi
                  exact hi

/-- Claim C7: the resolved defaults are step 800 px, interval 500 ms and
timeout 120000 ms; a single iteration succeeds exactly when the timeout
has not elapsed and either the bottom is reached within the 10 px
tolerance or the position has stalled for the third consecutive tick,
and fails exactly when the timeout has elapsed; and a whole run returns
a verdict exactly at the first iteration whose test fires, so the run
fails precisely when the timeout elapses before conditions (a) or (b)
hold. -/
theorem auto_scroll_outcome :
    (resolvedScrollStep ⟨none, none, none⟩ = 800 ∧
     resolvedScrollInterval ⟨none, none, none⟩ = 500 ∧
     resolvedScrollTimeout ⟨none, none, none⟩ = 120000) ∧
    (∀ (timeout : Nat) (lastTop : Int) (unchanged : Nat) (t : ScrollTick),
      (tickOutcome timeout lastTop unchanged t = some false ↔ timeout < t.elapsed) ∧
      (tickOutcome timeout lastTop unchanged t = some true ↔
        t.elapsed ≤ timeout ∧
          (reachedBottom t ∨ (nearLast lastTop t ∧ 3 ≤ unchanged + 1)))) ∧
    (∀ (cfg : AutoScrollConfig) (ticks : List ScrollTick) (b : Bool),
      autoScrollToBottom cfg ticks = some b ↔
        ∃ i tk, ticks[i]? = some tk ∧
          (∀ j, j < i → ∀ tj, ticks[j]? = some tj →
            tickOutcome (resolvedScrollTimeout cfg)
              (scrollStateAt (-1) 0 ticks j).1 (scrollStateAt (-1) 0 ticks j).2 tj = none) ∧
          tickOutcome (resolvedScrollTimeout cfg)
            (scrollStateAt (-1) 0 ticks i).1 (scrollStateAt (-1) 0 ticks i).2 tk = some b) := by
  refine ⟨⟨rfl, rfl, rfl⟩, ?_, ?_⟩
  · intro timeout l u t
    constructor
    · unfold tickOutcome
      by_cases hti : timeout < t.elapsed
      · simp [hti]
      · by_cases hbot : reachedBottom t
        · simp [hti, hbot]
        · by_cases hst : nearLast l t ∧ 3 ≤ u + 1 <;> simp [hti, hbot, hst]
    · unfold tickOutcome
      by_cases hti : timeout < t.elapsed
      · constructor
        · intro h
          rw [if_pos hti] at h
          exact absurd h (by simp)
        · rintro ⟨hle, -⟩
          omega
      · have hle : t.elapsed ≤ timeout := Nat.le_of_not_lt hti
        rw [if_neg hti]
        by_cases hbot : reachedBottom t
        · rw [if_pos hbot]
          simp [hle, hbot]
        · rw [if_neg hbot]
          by_cases hst : nearLast l t ∧ 3 ≤ u + 1
          · rw [if_pos hst]
            simp [hle, hst]
          · rw [if_neg hst]
            constructor
            · intro h
              exact absurd h (by simp)
            · rintro ⟨-, hbad | hbad⟩
              · exact absurd hbad hbot
              · exact absurd hbad hst
  · intro cfg ticks b
    exact autoScrollLoop_characterization (resolvedScrollTimeout cfg) ticks (-1) 0 b

/-- Witness for C7: a two-tick run that keeps scrolling on the first
tick and reaches the bottom on the second, with a 1000 ms timeout. -/
theorem auto_scroll_outcome_witness :
    autoScrollToBottom ⟨none, none, some 1000⟩
        [⟨0, 0, 2000, 100⟩, ⟨600, 1950, 2000, 100⟩] = some true ∧
    (∃ i tk,
      ([⟨0, 0, 2000, 100⟩, (⟨600, 1950, 2000, 100⟩ : ScrollTick)] : List ScrollTick)[i]? =
          some tk ∧
      (∀ j, j < i → ∀ tj,
        ([⟨0, 0, 2000, 100⟩, (⟨600, 1950, 2000, 100⟩ : ScrollTick)] : List ScrollTick)[j]? =
            some tj →
        tickOutcome 1000
          (scrollStateAt (-1) 0 [⟨0, 0, 2000, 100⟩, ⟨600, 1950, 2000, 100⟩] j).1
          (scrollStateAt (-1) 0 [⟨0, 0, 2000, 100⟩, ⟨600, 1950, 2000, 100⟩] j).2 tj = none) ∧
      tickOutcome 1000
        (scrollStateAt (-1) 0 [⟨0, 0, 2000, 100⟩, ⟨600, 1950, 2000, 100⟩] i).1
        (scrollStateAt (-1) 0 [⟨0, 0, 2000, 100⟩, ⟨600, 1950, 2000, 100⟩] i).2 tk =
          some true) := by
  constructor
  · decide
  · exact (auto_scroll_outcome.2.2 ⟨none, none, some 1000⟩
      [⟨0, 0, 2000, 100⟩, ⟨600, 1950, 2000, 100⟩] true).mp (by decide)

/-! ## BlockProcessor (src/processors/BlockProcessor.ts)

The page-level control flow of the three processing modes, modelled as
event traces.  What processSingleBlock (respectively the per-block flow
of a section config) reports for each block — success flag, free flag,
extracted block name — depends on the page DOM, the user handler and the
recorder state, all external to the page-level logic verified here, so
each located block enters the model together with its reported
BlockOutcome.  The observable recorder actions of the page-level code
are collected in an event trace: one processBlock event per
processSingleBlock invocation (tagged with section, batch and in-batch
position), one recordMismatch event per MismatchRecorder.addMismatch
call (the recorder is part of the execution context built by the
orchestrator and is modelled as present), and one markPageComplete event
per TaskProgress.markPageComplete call — the call that adds the page key
to Progress.completedPages.
-/

/-- What processSingleBlock reports for one block. -/
structure BlockOutcome where
  success : Bool
  isFree : Bool
  blockName : Option String
deriving DecidableEq

/-- Observable recorder actions of the page-level BlockProcessor code. -/
inductive CrawlEvent where
  | processBlock (sectionIdx batchIdx blockIdx : Nat) (r : BlockOutcome)
  | recordMismatch (pagePath : String) (expected actual : Nat)
  | markPageComplete (path : String)
deriving DecidableEq

/-- normalizePagePath: strip a leading slash — the test for the slash
and the one-character slice are modelled on the character list of the
string.  (The source first maps an absolute http or https URL to its
pathname through the URL parser, an external capability; the scheduler
hands the processor site-relative link paths from collect.json, for
which that branch is the identity, so the embedding keeps the
slash-stripping step.) -/
def normalizePagePath (link : String) : String :=
  if link.data.head? = some '/' then String.mk link.data.tail else link

/-- The free-block names collected by a processing loop: the name of
every block reported free, when the name is present. -/
def freeNamesOf (blocks : List BlockOutcome) : List String :=
  blocks.filterMap (fun b => if b.isFree then b.blockName else none)

/-- The processBlock events of one run over a block list, numbering the
blocks from `start` within the given section and batch. -/
def blockEvents (sectionIdx batchIdx : Nat) : Nat → List BlockOutcome → List CrawlEvent
  | _, [] => []
  | i, b :: rest =>
      CrawlEvent.processBlock sectionIdx batchIdx i b ::
        blockEvents sectionIdx batchIdx (i + 1) rest

/-- The configuration consulted by the traditional mode page-level
logic: the expected block count from CollectResult (when supplied) and
the ignoreMismatch flag. -/
structure TraditionalConfig where
  expectedBlockCount : Option Nat
  ignoreMismatch : Bool
deriving DecidableEq

/-- The mismatch events recorded for a page with `actual` located
blocks. -/
def mismatchEvents (cfg : TraditionalConfig) (pagePath : String) (actual : Nat) :
    List CrawlEvent :=
  match cfg.expectedBlockCount with
  | some e => if actual ≠ e then [CrawlEvent.recordMismatch pagePath e actual] else []
  | none => []

/-- Does the mismatch check abort the page (count differs and
ignoreMismatch is off)? -/
def mismatchSkips (cfg : TraditionalConfig) (actual : Nat) : Bool :=
  match cfg.expectedBlockCount with
  | some e => decide (actual ≠ e) && !cfg.ignoreMismatch
  | none => false

/-- The result of processing one page: the event trace, the returned
totalCount (the number of successfully completed blocks) and the
returned free block names. -/
structure PageResult where
  events : List CrawlEvent
  totalCount : Nat
  freeBlocks : List String
deriving DecidableEq

/-- Traditional mode (processBlocksTraditional): locate all blocks at
once; check the expected count and either abort or continue; process
every block; mark the page complete exactly when every located block
completed successfully and at least one block was located.  The
completion verification that follows only logs and pauses, so it emits
no events. -/
def processBlocksTraditional (cfg : TraditionalConfig) (pagePath : String)
    (blocks : List BlockOutcome) : PageResult :=
  if mismatchSkips cfg blocks.length then
    { events := mismatchEvents cfg pagePath blocks.length,
      totalCount := 0, freeBlocks := [] }
  else
    { events := mismatchEvents cfg pagePath blocks.length ++ blockEvents 0 0 0 blocks ++
        (if (blocks.filter (·.success)).length = blocks.length ∧ 0 < blocks.length then
          [CrawlEvent.markPageComplete (normalizePagePath pagePath)]
        else []),
      totalCount := (blocks.filter (·.success)).length,
      freeBlocks := freeNamesOf blocks }

/-- The per-section processBlock events of the multi-section mode
(sections numbered from `s`; a section whose locator finds zero blocks
is skipped and contributes no events). -/
def sectionEvents : Nat → List (List BlockOutcome) → List CrawlEvent
  | _, [] => []
  | s, blocks :: rest => blockEvents s 0 0 blocks ++ sectionEvents (s + 1) rest

/-- Multi-section mode (processMultipleBlockSections): process the
blocks of every section config in order, then mark the page complete
exactly when at least one block completed. -/
def processMultipleBlockSections (pagePath : String)
    (sections : List (List BlockOutcome)) : PageResult :=
  { events := sectionEvents 0 sections ++
      (if 0 < ((sections.flatten).filter (·.success)).length then
        [CrawlEvent.markPageComplete (normalizePagePath pagePath)]
      else []),
    totalCount := ((sections.flatten).filter (·.success)).length,
    freeBlocks := freeNamesOf sections.flatten }

/-- One block as seen by the progressive mode: the name the quick
heading check can extract without waiting (none while the block is still
loading or has no heading yet), and the outcome processSingleBlock
reports when the block is processed. -/
structure PBlock where
  quickName : Option String
  outcome : BlockOutcome
deriving DecidableEq

/-- The filter of the progressive mode: a block is unprocessed when the
quick check yields no name or a name not yet in the processed-name
set. -/
def isUnprocessed (names : List String) (b : PBlock) : Bool :=
  match b.quickName with
  | some n => !(names.contains n)
  | none => true

/-- The blocks of one locator query that the progressive mode still has
to process. -/
def unprocessedOf (names : List String) (q : List PBlock) : List PBlock :=
  q.filter (isUnprocessed names)

/-- The processBlock events of one progressive batch. -/
def batchEvents (batch : Nat) : Nat → List PBlock → List CrawlEvent
  | _, [] => []
  | i, b :: rest =>
      CrawlEvent.processBlock 0 batch i b.outcome :: batchEvents batch (i + 1) rest

/-- The while loop of processBlocksProgressively.  Each iteration
re-queries the block locator (the successive query results are the
`queries` input), filters out the already processed blocks by name,
exits when nothing is left — marking the page complete exactly when at
least one block completed — and otherwise processes the whole remaining
batch and loops.  Returns the trace, the completed count and the list of
query results examined; an exhausted query list models a run that was
still looping. -/
def progressiveLoop (pagePath : String) :
    List String → Nat → List CrawlEvent → Nat → List (List PBlock) →
      Option (List CrawlEvent × Nat × List (List PBlock))
  | _, _, _, _, [] => none
  | names, completed, events, batch, q :: rest =>
      let un := unprocessedOf names q
      if un.isEmpty then
        some (events ++
          (if 0 < completed then
            [CrawlEvent.markPageComplete (normalizePagePath pagePath)]
          else []),
          completed, [q])
      else
        match progressiveLoop pagePath (names ++ un.filterMap (·.outcome.blockName))
            (completed + (un.filter (·.outcome.success)).length)
            (events ++ batchEvents batch 0 un) (batch + 1) rest with
        | some (tr, c, consumed) => some (tr, c, q :: consumed)
        | none => none

/-- processBlocksProgressively: run the loop from an empty
processed-name set, zero completed count, an empty trace and batch
number one. -/
def processBlocksProgressively (pagePath : String) (queries : List (List PBlock)) :
    Option (List CrawlEvent × Nat × List (List PBlock)) :=
  progressiveLoop pagePath [] 0 [] 1 queries

/-- A located block counts as processed in a trace when either it was
itself handed to processSingleBlock, or its quickly extracted name is
the reported name of a block that was. -/
def processedByName (tr : List CrawlEvent) (b : PBlock) : Prop :=
  (∃ bn i, CrawlEvent.processBlock 0 bn i b.outcome ∈ tr) ∨
  (∃ n, b.quickName = some n ∧
    ∃ bn i r, CrawlEvent.processBlock 0 bn i r ∈ tr ∧ r.blockName = some n)

theorem mem_blockEvents_of_get (sectionIdx batchIdx : Nat) :
    ∀ (l : List BlockOutcome) (start i : Nat) (h : i < l.length),
      CrawlEvent.processBlock sectionIdx batchIdx (start + i) (l.get ⟨i, h⟩) ∈
        blockEvents sectionIdx batchIdx start l := by
  intro l
  induction l with
  | nil =>
      intro start i h
      simp at h
  | cons b rest ih =>
      intro start i h
      cases i with
      | zero =>
          simp [blockEvents]
      | succ k =>
          have hk : k < rest.length := by simpa using h
          have := ih (start + 1) k hk
          have harith : start + 1 + k = start + (k + 1) := by omega
          rw [harith] at this
          exact List.mem_cons_of_mem _ this

theorem mem_batchEvents_of_mem (batch : Nat) :
    ∀ (l : List PBlock) (start : Nat) (b : PBlock), b ∈ l →
      ∃ i, CrawlEvent.processBlock 0 batch i b.outcome ∈ batchEvents batch start l := by
  intro l
  induction l with
  | nil =>
      intro start b hb
      simp at hb
  | cons x rest ih =>
      intro start b hb
      rcases List.mem_cons.mp hb with rfl | hb
      · exact ⟨start, List.mem_cons_self _ _⟩
      · rcases ih (start + 1) b hb with ⟨i, hi⟩
        exact ⟨i, List.mem_cons_of_mem _ hi⟩

theorem mem_mismatchEvents {cfg : TraditionalConfig} {pagePath : String} {actual : Nat}
    {ev : CrawlEvent} (h : ev ∈ mismatchEvents cfg pagePath actual) :
    ∃ ex, ev = CrawlEvent.recordMismatch pagePath ex actual := by
  obtain ⟨ec, ig⟩ := cfg
  cases ec with
  | none => simp [mismatchEvents] at h
  | some e =>
      simp only [mismatchEvents] at h
      by_cases hne : actual ≠ e
      · rw [if_pos hne] at h
        have hev : ev = CrawlEvent.recordMismatch pagePath e actual :=
          List.mem_singleton.mp h
        exact ⟨e, hev⟩
      · rw [if_neg hne] at h
        simp at h

theorem isUnprocessed_false {names : List String} {b : PBlock}
    (h : isUnprocessed names b = false) :
    ∃ n, b.quickName = some n ∧ n ∈ names := by
  obtain ⟨qn, outc⟩ := b
  cases qn with
  | none => simp [isUnprocessed] at h
  | some n =>
      simp only [isUnprocessed] at h
      have hc : names.contains n = true := by
        cases hcn : names.contains n with
        | true => rfl
        | false => rw [hcn] at h; simp at h
      exact ⟨n, rfl, List.elem_iff.mp hc⟩

/-- The invariant of the progressive loop: when the loop exits cleanly,
the trace extends the accumulated events, and — provided every
accumulated processed name is justified by an accumulated processBlock
event — every block of every examined query result is processed by
name in the final trace. -/
theorem progressiveLoop_processed (pagePath : String) :
    ∀ (queries : List (List PBlock)) (names : List String) (completed : Nat)
      (events : List CrawlEvent) (batch : Nat) (tr : List CrawlEvent) (c : Nat)
      (consumed : List (List PBlock)),
      progressiveLoop pagePath names completed events batch queries =
        some (tr, c, consumed) →
      (∀ n ∈ names, ∃ bn i r,
        CrawlEvent.processBlock 0 bn i r ∈ events ∧ r.blockName = some n) →
      (∀ e ∈ events, e ∈ tr) ∧
      (∀ q ∈ consumed, ∀ b ∈ q, processedByName tr b) := by
  intro queries
  induction queries with
  | nil =>
      intro names completed events batch tr c consumed h _
      simp [progressiveLoop] at h
  | cons q rest ih =>
      intro names completed events batch tr c consumed h hjust
      rw [progressiveLoop] at h
      by_cases hun : (unprocessedOf names q).isEmpty
      · rw [if_pos hun] at h
        have hinj := Option.some.inj h
        have htr : events ++
            (if 0 < completed then
              [CrawlEvent.markPageComplete (normalizePagePath pagePath)]
            else []) = tr := congrArg Prod.fst hinj
        have hcons : ([q] : List (List PBlock)) = consumed :=
          congrArg (fun t => t.2.2) hinj
        have hempty : unprocessedOf names q = [] := List.isEmpty_iff.mp hun
        have hsub : ∀ e ∈ events, e ∈ tr := by
          intro e he
          rw [← htr]
          exact List.mem_append_left _ he
        refine ⟨hsub, ?_⟩
        intro q2 hq2 b hb
        rw [← hcons] at hq2
        have hq2e : q2 = q := List.mem_singleton.mp hq2
        subst hq2e
        have hpred : isUnprocessed names b = false := by
          cases hcase : isUnprocessed names b with
          | false => rfl
          | true =>
              have hmem : b ∈ unprocessedOf names q2 :=
                List.mem_filter.mpr ⟨hb, hcase⟩
              rw [hempty] at hmem
              simp at hmem
        rcases isUnprocessed_false hpred with ⟨n, hqn, hn⟩
        rcases hjust n hn with ⟨bn, i, r, hev, hr⟩
        exact Or.inr ⟨n, hqn, bn, i, r, hsub _ hev, hr⟩
      · rw [if_neg hun] at h
        cases hrec : progressiveLoop pagePath
            (names ++ (unprocessedOf names q).filterMap (·.outcome.blockName))
            (completed + ((unprocessedOf names q).filter (·.outcome.success)).length)
            (events ++ batchEvents batch 0 (unprocessedOf names q)) (batch + 1) rest with
        | none => rw [hrec] at h; simp at h
        | some trip =>
            obtain ⟨tr2, c2, consumed2⟩ := trip
            rw [hrec] at h
            have hinj := Option.some.inj h
            have htr : tr2 = tr := congrArg Prod.fst hinj
            have hcons : q :: consumed2 = consumed :=
              congrArg (fun t => t.2.2) hinj
            have hjust2 : ∀ n ∈ names ++
                (unprocessedOf names q).filterMap (·.outcome.blockName),
                ∃ bn i r, CrawlEvent.processBlock 0 bn i r ∈
                  events ++ batchEvents batch 0 (unprocessedOf names q) ∧
                  r.blockName = some n := by
              intro n hn
              rcases List.mem_append.mp hn with hn | hn
              · rcases hjust n hn with ⟨bn, i, r, hev, hr⟩
                exact ⟨bn, i, r, List.mem_append_left _ hev, hr⟩
              · rcases List.mem_filterMap.mp hn with ⟨b, hb, hbn⟩
                rcases mem_batchEvents_of_mem batch (unprocessedOf names q) 0 b hb with
                  ⟨i, hi⟩
                exact ⟨batch, i, b.outcome, List.mem_append_right _ hi, hbn⟩
            have hres := ih _ _ _ _ tr2 c2 consumed2 hrec hjust2
            rw [htr] at hres
            obtain ⟨hsub2, hproc2⟩ := hres
            have hsub : ∀ e ∈ events, e ∈ tr := fun e he =>
              hsub2 e (List.mem_append_left _ he)
            refine ⟨hsub, ?_⟩
            intro q2 hq2 b hb
            rw [← hcons] at hq2
            rcases List.mem_cons.mp hq2 with hq2e | hq2
            · subst hq2e
              cases hcase : isUnprocessed names b with
              | true =>
                  have hmem : b ∈ unprocessedOf names q2 :=
                    List.mem_filter.mpr ⟨hb, hcase⟩
                  rcases mem_batchEvents_of_mem batch (unprocessedOf names q2) 0 b hmem
                    with ⟨i, hi⟩
                  exact Or.inl ⟨batch, i, hsub2 _ (List.mem_append_right _ hi)⟩
              | false =>
                  rcases isUnprocessed_false hcase with ⟨n, hqn, hn⟩
                  rcases hjust n hn with ⟨bn, i, r, hev, hr⟩
                  exact Or.inr ⟨n, hqn, bn, i, r, hsub _ hev, hr⟩
            · exact hproc2 q2 hq2 b hb

theorem mem_blockEvents_zero (sectionIdx batchIdx : Nat) (l : List BlockOutcome)
    (i : Nat) (h : i < l.length) :
    CrawlEvent.processBlock sectionIdx batchIdx i (l.get ⟨i, h⟩) ∈
      blockEvents sectionIdx batchIdx 0 l := by
  have := mem_blockEvents_of_get sectionIdx batchIdx l 0 i h
  simpa using this

theorem mem_sectionEvents_of_get :
    ∀ (sections : List (List BlockOutcome)) (s0 s : Nat) (hs : s < sections.length)
      (i : Nat) (hi : i < (sections.get ⟨s, hs⟩).length),
      CrawlEvent.processBlock (s0 + s) 0 i ((sections.get ⟨s, hs⟩).get ⟨i, hi⟩) ∈
        sectionEvents s0 sections := by
  intro sections
  induction sections with
  | nil =>
      intro s0 s hs
      simp at hs
  | cons blocks rest ih =>
      intro s0 s hs i hi
      cases s with
      | zero =>
          have hmem := mem_blockEvents_zero s0 0 blocks i hi
          rw [sectionEvents]
          rw [Nat.add_zero]
          exact List.mem_append_left _ hmem
      | succ k =>
          have hk : k < rest.length := by simpa using hs
          have := ih (s0 + 1) k hk i hi
          have harith : s0 + 1 + k = s0 + (k + 1) := by omega
          rw [harith] at this
          rw [sectionEvents]
          exact List.mem_append_right _ this

/-- Claim C1: in each mode the page key is added to
Progress.completedPages (the markPageComplete call) only after the whole
processing loop has run: in traditional mode every located block has a
processBlock event; in multi-section mode every block of every section
has one; in progressive mode (when the loop exits) every block of every
examined locator query was either handed to processSingleBlock itself or
deduplicated against the reported name of a block that was. -/
theorem mark_page_only_after_all_blocks :
    (∀ (cfg : TraditionalConfig) (pagePath p : String) (blocks : List BlockOutcome),
      CrawlEvent.markPageComplete p ∈
          (processBlocksTraditional cfg pagePath blocks).events →
      ∀ i (h : i < blocks.length),
        CrawlEvent.processBlock 0 0 i (blocks.get ⟨i, h⟩) ∈
          (processBlocksTraditional cfg pagePath blocks).events) ∧
    (∀ (pagePath p : String) (sections : List (List BlockOutcome)),
      CrawlEvent.markPageComplete p ∈
          (processMultipleBlockSections pagePath sections).events →
      ∀ s (hs : s < sections.length) i (hi : i < (sections.get ⟨s, hs⟩).length),
        CrawlEvent.processBlock s 0 i ((sections.get ⟨s, hs⟩).get ⟨i, hi⟩) ∈
          (processMultipleBlockSections pagePath sections).events) ∧
    (∀ (pagePath p : String) (queries : List (List PBlock))
      (tr : List CrawlEvent) (c : Nat) (consumed : List (List PBlock)),
      processBlocksProgressively pagePath queries = some (tr, c, consumed) →
      CrawlEvent.markPageComplete p ∈ tr →
      ∀ q ∈ consumed, ∀ b ∈ q, processedByName tr b) := by
  refine ⟨?_, ?_, ?_⟩
  · intro cfg pagePath p blocks hmark i h
    unfold processBlocksTraditional at hmark ⊢
    by_cases hskip : mismatchSkips cfg blocks.length = true
    · rw [if_pos hskip] at hmark
      rcases mem_mismatchEvents hmark with ⟨ex, hex⟩
      exact absurd hex (by simp)
    · rw [if_neg hskip]
      exact List.mem_append_left _
        (List.mem_append_right _ (mem_blockEvents_zero 0 0 blocks i h))
  · intro pagePath p sections hmark s hs i hi
    unfold processMultipleBlockSections
    have := mem_sectionEvents_of_get sections 0 s hs i hi
    rw [Nat.zero_add] at this
    exact List.mem_append_left _ this
  · intro pagePath p queries tr c consumed hrun hmark q hq b hb
    have hres := progressiveLoop_processed pagePath queries [] 0 [] 1 tr c consumed hrun
      (by intro n hn; exact absurd hn (List.not_mem_nil n))
    exact hres.2 q hq b hb

/-- Witness for C1: a one-block page in traditional mode, and a
two-query progressive run whose second query is fully deduplicated. -/
theorem mark_page_only_after_all_blocks_witness :
    CrawlEvent.processBlock 0 0 0 ⟨true, false, some "X"⟩ ∈
      (processBlocksTraditional ⟨none, false⟩ "p" [⟨true, false, some "X"⟩]).events ∧
    processedByName
      [CrawlEvent.processBlock 0 1 0 ⟨true, false, some "X"⟩,
        CrawlEvent.markPageComplete "p"]
      ⟨some "X", ⟨true, false, some "X"⟩⟩ := by
  constructor
  · exact mark_page_only_after_all_blocks.1 ⟨none, false⟩ "p" "p"
      [⟨true, false, some "X"⟩] (by decide) 0 (by decide)
  · exact mark_page_only_after_all_blocks.2.2 "p" "p"
      [[⟨some "X", ⟨true, false, some "X"⟩⟩], [⟨some "X", ⟨true, false, some "X"⟩⟩]]
      [CrawlEvent.processBlock 0 1 0 ⟨true, false, some "X"⟩,
        CrawlEvent.markPageComplete "p"]
      1
      [[⟨some "X", ⟨true, false, some "X"⟩⟩], [⟨some "X", ⟨true, false, some "X"⟩⟩]]
      (by decide) (by decide)
      [⟨some "X", ⟨true, false, some "X"⟩⟩] (by decide)
      ⟨some "X", ⟨true, false, some "X"⟩⟩ (by decide)

/-- Counterexample to claim C2 as stated: when the block locator finds
zero elements, traditional-mode processing does NOT mark the page
complete (the mark requires at least one located block). -/
theorem zero_blocks_not_marked_counterexample :
    CrawlEvent.markPageComplete (normalizePagePath "a") ∉
      (processBlocksTraditional ⟨none, false⟩ "a" []).events := by decide

/-- Claim C2 (amended): for every page on which the block locator finds
zero elements, traditional-mode processing records no block, processes
no block, reports zero completed blocks and no free blocks, and leaves
the page unmarked: the page-complete mark requires at least one located
block. -/
theorem zero_blocks_leave_page_unmarked (cfg : TraditionalConfig) (pagePath : String) :
    (processBlocksTraditional cfg pagePath []).totalCount = 0 ∧
    (processBlocksTraditional cfg pagePath []).freeBlocks = [] ∧
    (∀ p, CrawlEvent.markPageComplete p ∉
      (processBlocksTraditional cfg pagePath []).events) ∧
    (∀ s bt i b, CrawlEvent.processBlock s bt i b ∉
      (processBlocksTraditional cfg pagePath []).events) := by
  have hev : ∀ ev ∈ (processBlocksTraditional cfg pagePath []).events,
      ∃ ex, ev = CrawlEvent.recordMismatch pagePath ex 0 := by
    intro ev hmem
    unfold processBlocksTraditional at hmem
    by_cases hskip : mismatchSkips cfg ([] : List BlockOutcome).length = true
    · rw [if_pos hskip] at hmem
      exact mem_mismatchEvents hmem
    · rw [if_neg hskip] at hmem
      simp only [blockEvents, List.filter_nil, List.length_nil,
        Nat.lt_irrefl, and_false, if_false, List.append_nil] at hmem
      exact mem_mismatchEvents hmem
  refine ⟨?_, ?_, ?_, ?_⟩
  · unfold processBlocksTraditional
    by_cases hskip : mismatchSkips cfg ([] : List BlockOutcome).length = true
    · rw [if_pos hskip]
    · rw [if_neg hskip]
      simp
  · unfold processBlocksTraditional
    by_cases hskip : mismatchSkips cfg ([] : List BlockOutcome).length = true
    · rw [if_pos hskip]
    · rw [if_neg hskip]
      simp [freeNamesOf]
  · intro p hmem
    rcases hev _ hmem with ⟨ex, hex⟩
    exact absurd hex (by simp)
  · intro s bt i b hmem
    rcases hev _ hmem with ⟨ex, hex⟩
    exact absurd hex (by simp)

theorem mismatchSkips_of_ne {cfg : TraditionalConfig} {e actual : Nat}
    (hexp : cfg.expectedBlockCount = some e) (hne : actual ≠ e) :
    mismatchSkips cfg actual = !cfg.ignoreMismatch := by
  obtain ⟨ec, ig⟩ := cfg
  have hec : ec = some e := hexp
  subst hec
  simp [mismatchSkips, hne]

theorem mismatchEvents_of_ne {cfg : TraditionalConfig} {e : Nat} (pagePath : String)
    {actual : Nat} (hexp : cfg.expectedBlockCount = some e) (hne : actual ≠ e) :
    mismatchEvents cfg pagePath actual =
      [CrawlEvent.recordMismatch pagePath e actual] := by
  obtain ⟨ec, ig⟩ := cfg
  have hec : ec = some e := hexp
  subst hec
  simp [mismatchEvents, hne]

/-- Claim C3: in traditional mode, when a supplied expectedBlockCount
differs from the located count, the mismatch (pagePath, expected,
actual) is recorded; with ignoreMismatch off the page is skipped — zero
completed blocks, no free blocks, no block processed — and with
ignoreMismatch on every located block is processed (the mismatch still
recorded). -/
theorem mismatch_recorded_and_gated (cfg : TraditionalConfig) (pagePath : String)
    (blocks : List BlockOutcome) (e : Nat)
    (hexp : cfg.expectedBlockCount = some e) (hne : blocks.length ≠ e) :
    CrawlEvent.recordMismatch pagePath e blocks.length ∈
      (processBlocksTraditional cfg pagePath blocks).events ∧
    (cfg.ignoreMismatch = false →
      (processBlocksTraditional cfg pagePath blocks).totalCount = 0 ∧
      (processBlocksTraditional cfg pagePath blocks).freeBlocks = [] ∧
      ∀ s bt i b, CrawlEvent.processBlock s bt i b ∉
        (processBlocksTraditional cfg pagePath blocks).events) ∧
    (cfg.ignoreMismatch = true →
      ∀ i (h : i < blocks.length),
        CrawlEvent.processBlock 0 0 i (blocks.get ⟨i, h⟩) ∈
          (processBlocksTraditional cfg pagePath blocks).events) := by
  have hmm := mismatchEvents_of_ne pagePath hexp hne
  have hskipv := mismatchSkips_of_ne hexp hne
  cases hig : cfg.ignoreMismatch with
  | false =>
      have hskip : mismatchSkips cfg blocks.length = true := by
        rw [hskipv, hig]
        rfl
      refine ⟨?_, ?_, ?_⟩
      · unfold processBlocksTraditional
        rw [if_pos hskip, hmm]
        exact List.mem_singleton_self _
      · intro _
        unfold processBlocksTraditional
        rw [if_pos hskip]
        refine ⟨rfl, rfl, ?_⟩
        intro s bt i b hmem
        rw [hmm] at hmem
        have := List.mem_singleton.mp hmem
        exact absurd this (by simp)
      · intro hcontra
        exact absurd hcontra (by simp)
  | true =>
      have hskip : mismatchSkips cfg blocks.length = false := by
        rw [hskipv, hig]
        rfl
      have hskip' : ¬ mismatchSkips cfg blocks.length = true := by
        rw [hskip]
        simp
      refine ⟨?_, ?_, ?_⟩
      · unfold processBlocksTraditional
        rw [if_neg hskip', hmm]
        exact List.mem_append_left _
          (List.mem_append_left _ (List.mem_singleton_self _))
      · intro hcontra
        exact absurd hcontra (by simp)
      · intro _ i h
        unfold processBlocksTraditional
        rw [if_neg hskip']
        exact List.mem_append_left _
          (List.mem_append_right _ (mem_blockEvents_zero 0 0 blocks i h))

/-- Witness for C3: a page declared with 7 expected blocks exposing one
block, once with ignoreMismatch off (mismatch recorded, nothing
processed) and once with it on (mismatch recorded, the block
processed). -/
theorem mismatch_recorded_and_gated_witness :
    CrawlEvent.recordMismatch "p" 7 1 ∈
      (processBlocksTraditional ⟨some 7, false⟩ "p" [⟨true, false, some "X"⟩]).events ∧
    (processBlocksTraditional ⟨some 7, false⟩ "p" [⟨true, false, some "X"⟩]).totalCount = 0 ∧
    CrawlEvent.processBlock 0 0 0 ⟨true, false, some "X"⟩ ∈
      (processBlocksTraditional ⟨some 7, true⟩ "p" [⟨true, false, some "X"⟩]).events := by
  refine ⟨?_, ?_, ?_⟩
  · exact (mismatch_recorded_and_gated ⟨some 7, false⟩ "p"
      [⟨true, false, some "X"⟩] 7 rfl (by decide)).1
  · exact ((mismatch_recorded_and_gated ⟨some 7, false⟩ "p"
      [⟨true, false, some "X"⟩] 7 rfl (by decide)).2.1 rfl).1
  · exact (mismatch_recorded_and_gated ⟨some 7, true⟩ "p"
      [⟨true, false, some "X"⟩] 7 rfl (by decide)).2.2 rfl 0 (by decide)

/-! ## FreeRecorder (src/state/FreeRecorder.ts)

The recorder holds three in-memory collections: the free page paths, the
free block paths, and the per-page grouping blocksByPage mapping a page
path to the set of full block paths recorded under it.  `save()` writes
the two path sets sorted, and for blocksByPage only the segment after
the last slash of each block path (the block name).  `initialize()` on a
fresh recorder reads the file back, inserting the page and block paths
into fresh sets and rebuilding each grouped block path as
pagePath ++ "/" ++ name.  JavaScript string sets are modelled as
duplicate-free insertion-ordered lists of characters lists; the sort is
modelled by insertion sort with the lexicographic comparator (only
membership matters to the statements below).  The timestamp written by
save is wall-clock input and is omitted.
-/

/-- The segment after the last slash: what
blockPath.split("/")[parts.length - 1] yields. -/
def lastSeg (s : List Char) : List Char :=
  (s.reverse.takeWhile (fun c => c != '/')).reverse

/-- Set insertion for a JavaScript Set modelled as a duplicate-free
list. -/
def addToSet (x : List Char) (l : List (List Char)) : List (List Char) :=
  if x ∈ l then l else l ++ [x]

/-- The in-memory FreeRecorder state. -/
structure FreeRecorderState where
  pages : List (List Char)
  blocks : List (List Char)
  blocksByPage : List (List Char × List (List Char))
deriving DecidableEq

/-- Insert a block path under its page in the blocksByPage map. -/
def addBlockToPage (pagePath blockPath : List Char) :
    List (List Char × List (List Char)) → List (List Char × List (List Char))
  | [] => [(pagePath, [blockPath])]
  | (p, bs) :: rest =>
      if p = pagePath then (p, addToSet blockPath bs) :: rest
      else (p, bs) :: addBlockToPage pagePath blockPath rest

/-- addFreeBlock(blockPath, pagePath): record the full block path and
group it under the page. -/
def addFreeBlock (st : FreeRecorderState) (blockPath pagePath : List Char) :
    FreeRecorderState :=
  { st with
    blocks := addToSet blockPath st.blocks,
    blocksByPage := addBlockToPage pagePath blockPath st.blocksByPage }

/-- addFreePage(pagePath). -/
def addFreePage (st : FreeRecorderState) (pagePath : List Char) : FreeRecorderState :=
  { st with pages := addToSet pagePath st.pages }

/-- Lexicographic less-or-equal on character lists (the default JS sort
comparator on strings). -/
def strLeB : List Char → List Char → Bool
  | [], _ => true
  | _ :: _, [] => false
  | a :: as, b :: bs => if a = b then strLeB as bs else decide (a < b)

def insertSorted (x : List Char) : List (List Char) → List (List Char)
  | [] => [x]
  | y :: ys => if strLeB x y then x :: y :: ys else y :: insertSorted x ys

/-- The sorted copy produced by Array.from(set).sort(). -/
def sortStrs (l : List (List Char)) : List (List Char) := l.foldr insertSorted []

/-- The content of free.json as written by save: sorted page and block
paths, and per page the sorted block names (the last path segments). -/
structure FreeRecordFile where
  totalPages : Nat
  totalBlocks : Nat
  pages : List (List Char)
  blocks : List (List Char)
  blocksByPage : List (List Char × List (List Char))
deriving DecidableEq

/-- save(): serialize the recorder state. -/
def save (st : FreeRecorderState) : FreeRecordFile :=
  { totalPages := st.pages.length,
    totalBlocks := st.blocks.length,
    pages := sortStrs st.pages,
    blocks := sortStrs st.blocks,
    blocksByPage := st.blocksByPage.map (fun pb => (pb.1, sortStrs (pb.2.map lastSeg))) }

/-- The initialization of a fresh recorder from a free.json file
(FreeRecorder.initialize): insert every stored page and block path, and
rebuild each grouped block path as the page path, a slash, and the
stored name. -/
def loadFromFile (f : FreeRecordFile) : FreeRecorderState :=
  { pages := f.pages.foldl (fun acc p => addToSet p acc) [],
    blocks := f.blocks.foldl (fun acc b => addToSet b acc) [],
    blocksByPage := f.blocksByPage.map (fun pn =>
      (pn.1, pn.2.foldl (fun acc n => addToSet (pn.1 ++ '/' :: n) acc) [])) }

/-- save followed by initialize on a fresh recorder. -/
def roundTrip (st : FreeRecorderState) : FreeRecorderState := loadFromFile (save st)

/-- The precondition of claim C10: every recorded grouped block path is
its page path, a slash, and a slash-free block name. -/
def WellFormedBlocksByPage (st : FreeRecorderState) : Prop :=
  ∀ pb ∈ st.blocksByPage, ∀ bp ∈ pb.2, ∃ n, bp = pb.1 ++ '/' :: n ∧ '/' ∉ n

/-- Membership in the blocksByPage mapping: some entry for this page
contains this block path. -/
def blockInPage (m : List (List Char × List (List Char)))
    (pagePath bp : List Char) : Prop :=
  ∃ pb ∈ m, pb.1 = pagePath ∧ bp ∈ pb.2

theorem mem_addToSet {a x : List Char} {l : List (List Char)} :
    a ∈ addToSet x l ↔ a = x ∨ a ∈ l := by
  unfold addToSet
  by_cases hx : x ∈ l
  · rw [if_pos hx]
    constructor
    · exact Or.inr
    · rintro (rfl | h)
      · exact hx
      · exact h
  · rw [if_neg hx]
    constructor
    · intro h
      rcases List.mem_append.mp h with h | h
      · exact Or.inr h
      · exact Or.inl (List.mem_singleton.mp h)
    · rintro (rfl | h)
      · exact List.mem_append_right _ (List.mem_singleton_self _)
      · exact List.mem_append_left _ h

theorem mem_foldl_addToSet (f : List Char → List Char) :
    ∀ (l : List (List Char)) (acc : List (List Char)) (a : List Char),
      a ∈ l.foldl (fun acc x => addToSet (f x) acc) acc ↔
        a ∈ acc ∨ ∃ x ∈ l, a = f x := by
  intro l
  induction l with
  | nil =>
      intro acc a
      simp
  | cons x xs ih =>
      intro acc a
      rw [List.foldl_cons, ih]
      constructor
      · rintro (h | ⟨y, hy, rfl⟩)
        · rcases mem_addToSet.mp h with rfl | h
          · exact Or.inr ⟨x, List.mem_cons_self _ _, rfl⟩
          · exact Or.inl h
        · exact Or.inr ⟨y, List.mem_cons_of_mem _ hy, rfl⟩
      · rintro (h | ⟨y, hy, rfl⟩)
        · exact Or.inl (mem_addToSet.mpr (Or.inr h))
        · rcases List.mem_cons.mp hy with rfl | hy
          · exact Or.inl (mem_addToSet.mpr (Or.inl rfl))
          · exact Or.inr ⟨y, hy, rfl⟩

theorem mem_insertSorted {a x : List Char} :
    ∀ {l : List (List Char)}, a ∈ insertSorted x l ↔ a = x ∨ a ∈ l := by
  intro l
  induction l with
  | nil => simp [insertSorted]
  | cons y ys ih =>
      unfold insertSorted
      by_cases hle : strLeB x y = true
      · rw [if_pos hle]
        simp
      · rw [if_neg hle]
        constructor
        · intro h
          rcases List.mem_cons.mp h with rfl | h
          · exact Or.inr (List.mem_cons_self _ _)
          · rcases ih.mp h with rfl | h
            · exact Or.inl rfl
            · exact Or.inr (List.mem_cons_of_mem _ h)
        · rintro (rfl | h)
          · exact List.mem_cons_of_mem _ (ih.mpr (Or.inl rfl))
          · rcases List.mem_cons.mp h with rfl | h
            · exact List.mem_cons_self _ _
            · exact List.mem_cons_of_mem _ (ih.mpr (Or.inr h))

theorem mem_sortStrs {a : List Char} :
    ∀ {l : List (List Char)}, a ∈ sortStrs l ↔ a ∈ l := by
  intro l
  induction l with
  | nil => simp [sortStrs]
  | cons x xs ih =>
      show a ∈ insertSorted x (sortStrs xs) ↔ _
      rw [mem_insertSorted, ih]
      simp

theorem lastSeg_append {p n : List Char} (hn : '/' ∉ n) :
    lastSeg (p ++ '/' :: n) = n := by
  unfold lastSeg
  have hpos : ∀ a ∈ n.reverse, (fun c => c != '/') a = true := by
    intro a ha
    have hmem : a ∈ n := List.mem_reverse.mp ha
    simp only [bne_iff_ne, ne_eq]
    intro heq
    rw [heq] at hmem
    exact hn hmem
  rw [List.reverse_append, List.reverse_cons, List.append_assoc,
    List.takeWhile_append_of_pos hpos]
  have h2 : ((['/'] ++ p.reverse).takeWhile (fun c => c != '/')) = [] := by
    rw [List.singleton_append, List.takeWhile_cons]
    simp
  rw [h2, List.append_nil, List.reverse_reverse]

theorem mem_foldl_addToSet_id (l acc : List (List Char)) (a : List Char) :
    a ∈ l.foldl (fun acc x => addToSet x acc) acc ↔ a ∈ acc ∨ a ∈ l := by
  have h := mem_foldl_addToSet id l acc a
  simp only [id_eq] at h
  rw [h]
  constructor
  · rintro (h2 | ⟨x, hx, rfl⟩)
    · exact Or.inl h2
    · exact Or.inr hx
  · rintro (h2 | h2)
    · exact Or.inl h2
    · exact Or.inr ⟨a, h2, rfl⟩

/-- Claim C10: when every grouped block path is its page path plus a
slash-free block name, save followed by initialize on a fresh recorder
restores the pages set, the blocks set and the blocksByPage mapping
(at the membership level); and without that precondition the
blocksByPage mapping need not round-trip, because save persists only the
last path segment and initialize rebuilds pagePath/segment. -/
theorem freeRecorder_save_load_roundTrip :
    (∀ st : FreeRecorderState, WellFormedBlocksByPage st →
      (∀ p, p ∈ (roundTrip st).pages ↔ p ∈ st.pages) ∧
      (∀ b, b ∈ (roundTrip st).blocks ↔ b ∈ st.blocks) ∧
      (∀ pagePath bp, blockInPage (roundTrip st).blocksByPage pagePath bp ↔
        blockInPage st.blocksByPage pagePath bp)) ∧
    (∃ st : FreeRecorderState, ¬ WellFormedBlocksByPage st ∧
      ∃ pagePath bp, ¬ (blockInPage (roundTrip st).blocksByPage pagePath bp ↔
        blockInPage st.blocksByPage pagePath bp)) := by
  constructor
  · intro st hwf
    refine ⟨?_, ?_, ?_⟩
    · intro p
      show p ∈ (sortStrs st.pages).foldl (fun acc x => addToSet x acc) [] ↔ _
      rw [mem_foldl_addToSet_id (sortStrs st.pages) [] p]
      constructor
      · rintro (h | h)
        · simp at h
        · exact mem_sortStrs.mp h
      · intro h
        exact Or.inr (mem_sortStrs.mpr h)
    · intro b
      show b ∈ (sortStrs st.blocks).foldl (fun acc x => addToSet x acc) [] ↔ _
      rw [mem_foldl_addToSet_id (sortStrs st.blocks) [] b]
      constructor
      · rintro (h | h)
        · simp at h
        · exact mem_sortStrs.mp h
      · intro h
        exact Or.inr (mem_sortStrs.mpr h)
    · intro pagePath bp
      constructor
      · rintro ⟨pb2, hpb2, hpp, hbp⟩
        rcases List.mem_map.mp hpb2 with ⟨pn, hpn, rfl⟩
        rcases List.mem_map.mp hpn with ⟨pb, hpb, rfl⟩
        rcases (mem_foldl_addToSet _ _ _ _).mp hbp with h | ⟨n, hn, rfl⟩
        · simp at h
        · have hn2 : n ∈ pb.2.map lastSeg := mem_sortStrs.mp hn
          rcases List.mem_map.mp hn2 with ⟨b0, hb0, rfl⟩
          rcases hwf pb hpb b0 hb0 with ⟨m, hm, hmfree⟩
          have hseg : lastSeg b0 = m := by
            rw [hm]
            exact lastSeg_append hmfree
          refine ⟨pb, hpb, hpp, ?_⟩
          rw [hseg, ← hm]
          exact hb0
      · rintro ⟨pb, hpb, hpp, hbp⟩
        rcases hwf pb hpb bp hbp with ⟨m, hm, hmfree⟩
        refine ⟨(pb.1, (sortStrs (pb.2.map lastSeg)).foldl
          (fun acc n => addToSet (pb.1 ++ '/' :: n) acc) []), ?_, hpp, ?_⟩
        · show _ ∈ (st.blocksByPage.map
            (fun pb => (pb.1, sortStrs (pb.2.map lastSeg)))).map _
          refine List.mem_map.mpr ⟨(pb.1, sortStrs (pb.2.map lastSeg)), ?_, rfl⟩
          exact List.mem_map.mpr ⟨pb, hpb, rfl⟩
        · refine (mem_foldl_addToSet _ _ _ _).mpr (Or.inr ⟨lastSeg bp, ?_, ?_⟩)
          · exact mem_sortStrs.mpr (List.mem_map.mpr ⟨bp, hbp, rfl⟩)
          · rw [hm]
            rw [lastSeg_append hmfree]
  · refine ⟨addFreeBlock ⟨[], [], []⟩ "a/b".data "p".data, ?_, "p".data, "a/b".data, ?_⟩
    · intro hwf
      have hpb : (("p".data, ["a/b".data]) : List Char × List (List Char)) ∈
          (addFreeBlock ⟨[], [], []⟩ "a/b".data "p".data).blocksByPage := by
        decide
      rcases hwf _ hpb "a/b".data (by decide) with ⟨n, heq, -⟩
      have heq2 : ('a' :: '/' :: 'b' :: [] : List Char) = 'p' :: '/' :: n := heq
      injection heq2 with h1 _
      exact absurd h1 (by decide)
    · intro hiff
      have hrhs : blockInPage
          (addFreeBlock ⟨[], [], []⟩ "a/b".data "p".data).blocksByPage
          "p".data "a/b".data := by
        refine ⟨("p".data, ["a/b".data]), by decide, rfl, by decide⟩
      have hlhs := hiff.mpr hrhs
      rcases hlhs with ⟨pb2, hpb2, hpp, hbp⟩
      have hred : (roundTrip (addFreeBlock ⟨[], [], []⟩ "a/b".data "p".data)).blocksByPage =
          [("p".data, ["p/b".data])] := by decide
      rw [hred] at hpb2
      have hpb2e : pb2 = ("p".data, ["p/b".data]) := List.mem_singleton.mp hpb2
      subst hpb2e
      have : ("a/b".data : List Char) = "p/b".data := List.mem_singleton.mp hbp
      exact absurd this (by decide)

/-- Witness for C10 at a concrete well-formed state: one free block
"p/b" recorded under page "p" survives the save and initialize round
trip. -/
theorem freeRecorder_save_load_roundTrip_witness :
    blockInPage
      (roundTrip (addFreeBlock ⟨[], [], []⟩ "p/b".data "p".data)).blocksByPage
      "p".data "p/b".data ↔
    blockInPage (addFreeBlock ⟨[], [], []⟩ "p/b".data "p".data).blocksByPage
      "p".data "p/b".data := by
  refine (freeRecorder_save_load_roundTrip.1
    (addFreeBlock ⟨[], [], []⟩ "p/b".data "p".data) ?_).2.2 "p".data "p/b".data
  intro pb hpb bp hbp
  have hred : (addFreeBlock ⟨[], [], []⟩ "p/b".data "p".data).blocksByPage =
      [("p".data, ["p/b".data])] := by decide
  rw [hred] at hpb
  have hpbe : pb = ("p".data, ["p/b".data]) := List.mem_singleton.mp hpb
  subst hpbe
  have hbpe : bp = "p/b".data := List.mem_singleton.mp hbp
  subst hbpe
  exact ⟨"b".data, by decide, by decide⟩

end BlockCrawler
